import Mathlib

/-!
Verification of the Anatomize parser framework (src/anatomize.ts, v1.1.1).

Shallow embedding conventions:
* JS strings are modelled as `List Char`; JS `null` string slots as `Option`.
* The `Token`/`TokenType` interfaces become structures of the same names.
* A fixed-pattern matcher (a JS `RegExp`) is modelled by a small regex
  language `JsRegex` together with the semantics of `String.prototype.match`:
  an un-anchored regex is searched for at every position from the left
  (leftmost match wins), while a `^`-anchored regex only matches at the
  start.  Only the character-class and one-or-more forms are modelled,
  which is what the repository's documentation examples use; greedy
  matching of a single `[...]+` needs no backtracking, so the model agrees
  with JS on every regex expressible in it.
* A programmable matcher (the private `Matcher` class driven by a
  user-supplied pattern function) is modelled by the observable outcome of
  `Matcher.match`: the pattern's return value, the accumulated `#result`
  buffer and the final `#index`.  The two structure fields `result_le` and
  `index_le` record invariants every run of the real class satisfies:
  `#readChar` appends one character exactly when it advances the cursor
  once (so `#result` never outgrows `#index`), and both `#readChar` and
  `#omitChar` throw before moving past the end of the buffer (so `#index`
  never exceeds the input length).  `Matcher.match` returns
  `this.#result || null`, so the value slot is `none` rather than an
  empty string - that coercion is reproduced in `runMatcher`.
* Thrown JS exceptions become `Except` error values; methods that mutate
  the facade return the mutated state alongside the result so that state
  at the moment an exception propagates is observable.
-/

/-- Return value of a pattern function, as inspected by
`![false, null].includes(MatchResults[0])`: only `false` and `null` count
as "no match"; `undefined` and any truthy value count as a match. -/
inductive JsVal where
  | vFalse
  | vNull
  | vUndefined
  | vTruthy
deriving DecidableEq, Repr

/-- The values `[false, null]` that `#readToken` treats as a failed
programmable match. -/
def JsVal.isNoMatch : JsVal → Bool
  | .vFalse => true
  | .vNull => true
  | _ => false

/-- Core of a modelled JS regex: a single character from a class, or a
greedy one-or-more repetition of a class. -/
inductive RCore where
  | cls (cs : List Char)
  | plus (cs : List Char)
deriving DecidableEq, Repr

/-- Length of the longest run of characters from `cs` at the head of the
list (the extent of a greedy `[...]+` match). -/
def countLeading (cs : List Char) : List Char → Nat
  | [] => 0
  | c :: rest => if c ∈ cs then countLeading cs rest + 1 else 0

/-- How many characters `core` matches at the very start of `l`, if any. -/
def RCore.matchAt : RCore → List Char → Option Nat
  | .cls _, [] => none
  | .cls cs, c :: _ => if c ∈ cs then some 1 else none
  | .plus cs, l =>
    let n := countLeading cs l
    if n = 0 then none else some n

/-- A modelled JS `RegExp`: `anchored` records whether the pattern begins
with `^` (all regexes in the repository's documentation do). -/
structure JsRegex where
  anchored : Bool
  core : RCore
deriving DecidableEq, Repr

/-- Leftmost search of `String.prototype.match` for an un-anchored regex:
try the core at each successive start position and return the first
matched substring. -/
def searchFrom (core : RCore) : List Char → Option (List Char)
  | [] => (core.matchAt []).map (fun n => ([] : List Char).take n)
  | c :: rest =>
    match core.matchAt (c :: rest) with
    | some n => some ((c :: rest).take n)
    | none => searchFrom core rest

/-- Semantics of `INPUT.match(regexp)?.[0]`: for a `^`-anchored regex the
match must occur at position 0; otherwise the leftmost match anywhere in
the input is returned. -/
def JsRegex.jsMatch (r : JsRegex) (s : List Char) : Option (List Char) :=
  if r.anchored then (r.core.matchAt s).map (fun n => s.take n)
  else searchFrom r.core s

/-- Errors a programmable matcher run can raise: `rangeErr` models the
`RangeError` thrown by `#readChar`/`#omitChar` at end of input, `userErr`
any exception thrown by the user's pattern function itself. -/
inductive MatchErr where
  | rangeErr
  | userErr
deriving DecidableEq, Repr

/-- Observable outcome of one run of the private `Matcher` class on
`input`: the pattern function's return value, the accumulated `#result`
and the final `#index`.  `result_le` and `index_le` are invariants of the
class (see the file header). -/
structure ProgOutcome (input : List Char) where
  ret : JsVal
  result : List Char
  index : Nat
  result_le : result.length ≤ index
  index_le : index ≤ input.length

/-- A registered matcher: either a fixed pattern (JS `RegExp`) or a
programmable matcher, the latter abstracted as the function taking the
candidate substring to the outcome of `Matcher.match` on it (or to the
exception that run throws). -/
inductive Matcher where
  | regex (r : JsRegex)
  | prog (p : (input : List Char) → Except MatchErr (ProgOutcome input))

/-- The `TokenType` interface: `name` is a string or the JS `null`
sentinel (registering `null` makes every match a discard). -/
structure TokenType where
  name : Option (List Char)
  matcher : Matcher
  hidden : Bool

/-- The `Token` interface. -/
structure Token where
  type : List Char
  value : List Char
  hidden : Bool
deriving DecidableEq, Repr

/-- JS falsiness of the `name` field (`!TokenType.name` is true for both
`null` and the empty string). -/
def nameFalsy : Option (List Char) → Bool
  | none => true
  | some s => s.isEmpty

/-- Lexical errors: `undefinedToken` is the `Undefined Token` SyntaxError
of `#readToken`, `matcherErr` an exception propagating out of a matcher. -/
inductive LexErr where
  | undefinedToken (input : List Char)
  | matcherErr (e : MatchErr)
deriving DecidableEq, Repr

/-- One matcher application inside `#readToken`, producing the pair
(`tokenValue`, `tokenLength`).  In the `RegExp` branch the code sets
`tokenValue = INPUT.match(m)?.[0] ?? null` and
`tokenLength = tokenValue?.length ?? 0`; an empty-string match behaves
exactly like `null` in every later test, and is normalised to `none`
here (the modelled regexes never produce it anyway).  In the `Matcher`
branch the results are taken over when the return value is not `false` or
`null`; the value slot is `#result || null`, hence never empty. -/
def runMatcher : Matcher → List Char → Except MatchErr (Option (List Char) × Nat)
  | .regex r, input =>
    match r.jsMatch input with
    | some v => if v = [] then .ok (none, 0) else .ok (some v, v.length)
    | none => .ok (none, 0)
  | .prog p, input =>
    match p input with
    | .error e => .error e
    | .ok o =>
      if o.ret.isNoMatch then .ok (none, 0)
      else .ok ((if o.result = [] then none else some o.result), o.index)

/-- The `for (const TokenType of this.TokenTypes)` loop of `#readToken`:
apply each registered definition's matcher to `INPUT` in registration
order; skip a definition when `!tokenValue && 1 > tokenLength`
(no value and zero length); return the first definition that reports a
match together with its `tokenValue` and `tokenLength`; throw
`Undefined Token` when none does.  A matcher exception aborts the loop. -/
def tryDefs : List TokenType → List Char → Except LexErr (TokenType × Option (List Char) × Nat)
  | [], input => .error (.undefinedToken input)
  | tt :: rest, input =>
    match runMatcher tt.matcher input with
    | .error e => .error (.matcherErr e)
    | .ok (value, length) =>
      if value = none ∧ length < 1 then tryDefs rest input
      else .ok (tt, value, length)

theorem runMatcher_some {m : Matcher} {input v : List Char} {len : Nat}
    (h : runMatcher m input = .ok (some v, len)) : v ≠ [] ∧ v.length ≤ len := by
  cases m with
  | regex r =>
    simp only [runMatcher] at h
    cases hm : r.jsMatch input with
    | none => simp [hm] at h
    | some w =>
      simp only [hm] at h
      by_cases hw : w = []
      · rw [if_pos hw] at h
        simp at h
      · rw [if_neg hw] at h
        simp only [Except.ok.injEq, Prod.mk.injEq, Option.some.injEq] at h
        obtain ⟨rfl, rfl⟩ := h
        exact ⟨hw, le_refl _⟩
  | prog p =>
    simp only [runMatcher] at h
    cases hp : p input with
    | error e => simp [hp] at h
    | ok o =>
      simp only [hp] at h
      by_cases hr : o.ret.isNoMatch = true
      · rw [if_pos hr] at h
        simp at h
      · rw [if_neg hr] at h
        by_cases ho : o.result = []
        · rw [if_pos ho] at h
          simp at h
        · rw [if_neg ho] at h
          simp only [Except.ok.injEq, Prod.mk.injEq, Option.some.injEq] at h
          obtain ⟨rfl, rfl⟩ := h
          exact ⟨ho, o.result_le⟩

theorem tryDefs_ok_run {defs : List TokenType} {input : List Char} {tt : TokenType}
    {v : Option (List Char)} {len : Nat} (h : tryDefs defs input = .ok (tt, v, len)) :
    runMatcher tt.matcher input = .ok (v, len) ∧ ¬(v = none ∧ len < 1) := by
  induction defs with
  | nil => simp [tryDefs] at h
  | cons d rest ih =>
    simp only [tryDefs] at h
    cases hm : runMatcher d.matcher input with
    | error e => simp [hm] at h
    | ok p =>
      obtain ⟨value, length⟩ := p
      simp only [hm] at h
      by_cases hg : value = none ∧ length < 1
      · rw [if_pos hg] at h
        exact ih h
      · rw [if_neg hg] at h
        simp only [Except.ok.injEq, Prod.mk.injEq] at h
        obtain ⟨rfl, rfl, rfl⟩ := h
        exact ⟨hm, hg⟩

theorem tryDefs_ok_len {defs : List TokenType} {input : List Char} {tt : TokenType}
    {v : Option (List Char)} {len : Nat} (h : tryDefs defs input = .ok (tt, v, len)) :
    1 ≤ len := by
  obtain ⟨hrun, hg⟩ := tryDefs_ok_run h
  cases v with
  | none =>
    simp only [not_and, not_lt] at hg
    exact hg trivial
  | some w =>
    have h1 := runMatcher_some hrun
    have h2 : 1 ≤ w.length := by
      cases w with
      | nil => exact absurd rfl h1.1
      | cons a l => simp
    omega

theorem tryDefs_ok_val {defs : List TokenType} {input w : List Char} {tt : TokenType}
    {len : Nat} (h : tryDefs defs input = .ok (tt, some w, len)) : w ≠ [] := by
  obtain ⟨hrun, _⟩ := tryDefs_ok_run h
  exact (runMatcher_some hrun).1

/-- The `#readToken` method: slice `INPUT` from the current absolute
`index`, run the definition loop, advance the index by `tokenLength`, and
either recurse (a discard: no name or no value; returning `null` instead
when the source is exhausted) or emit the token. -/
def readToken (defs : List TokenType) (buffer : List Char) (index : Nat) :
    Except LexErr (Option Token × Nat) :=
  match h : tryDefs defs (buffer.drop index) with
  | .error e => .error e
  | .ok (tt, value, length) =>
    if nameFalsy tt.name ∨ value = none then
      if buffer.length ≤ index + length then .ok (none, index + length)
      else readToken defs buffer (index + length)
    else
      .ok (some { type := tt.name.getD [], value := value.getD [],
                  hidden := tt.hidden }, index + length)
termination_by buffer.length - index
decreasing_by
  have hlen := tryDefs_ok_len h
  omega

theorem readToken_advance_aux (defs : List TokenType) (buffer : List Char) :
    ∀ n index, buffer.length - index ≤ n → ∀ t i2,
      readToken defs buffer index = .ok (t, i2) → index < i2 := by
  intro n
  induction n with
  | zero =>
    intro index hle t i2 hr
    rw [readToken] at hr
    split at hr
    · exact absurd hr (by simp)
    · rename_i tt value length h
      have hlen := tryDefs_ok_len h
      split at hr
      · split at hr
        · simp only [Except.ok.injEq, Prod.mk.injEq] at hr
          omega
        · rename_i heof
          omega
      · simp only [Except.ok.injEq, Prod.mk.injEq] at hr
        omega
  | succ n ih =>
    intro index hle t i2 hr
    rw [readToken] at hr
    split at hr
    · exact absurd hr (by simp)
    · rename_i tt value length h
      have hlen := tryDefs_ok_len h
      split at hr
      · split at hr
        · simp only [Except.ok.injEq, Prod.mk.injEq] at hr
          omega
        · rename_i heof
          have := ih (index + length) (by omega) t i2 hr
          omega
      · simp only [Except.ok.injEq, Prod.mk.injEq] at hr
        omega

theorem readToken_advance {defs : List TokenType} {buffer : List Char} {index : Nat}
    {t : Option Token} {i2 : Nat} (hr : readToken defs buffer index = .ok (t, i2)) :
    index < i2 :=
  readToken_advance_aux defs buffer buffer.length index (by omega) t i2 hr

/-- The combined mutable state of one `Anatomize` facade and its owned
tokenizer: the registered `TokenTypes`, the tokenizer's `#buffer` and
absolute `#index`, the `#lookaheadBuffer` (whose entries are `Option`
because `initialize` pushes the `null` that `#readToken` returns when a
discard consumes the rest of the source), the `#lookaheadIndex` read
cursor, and the `#parsing` mode flag. -/
structure Anatomize where
  TokenTypes : List TokenType
  buffer : List Char
  index : Nat
  lookaheadBuffer : List (Option Token)
  lookaheadIndex : Nat
  parsing : Bool

/-- The `while(!this.#isEOF()) this.#lookaheadBuffer.push(this.#readToken())`
loop of `Tokenizer.initialize`, started at absolute position `index` with
the tokens pushed so far in `acc`.  On a lexical error the partially
filled buffer and the position reached are reported alongside it, since
the exception leaves the object in exactly that state. -/
def tokenizeLoop (defs : List TokenType) (buffer : List Char) (index : Nat)
    (acc : List (Option Token)) :
    Except (LexErr × List (Option Token) × Nat) (List (Option Token) × Nat) :=
  if buffer.length ≤ index then .ok (acc, index)
  else
    match h : readToken defs buffer index with
    | .error e => .error (e, acc, index)
    | .ok (tok, index2) => tokenizeLoop defs buffer index2 (acc ++ [tok])
termination_by buffer.length - index
decreasing_by
  have := readToken_advance h
  omega

/-- The `Tokenizer.initialize` method: store the source as the buffer,
reset both cursors, empty the lookahead buffer, then run the tokenize
loop to exhaustion.  A lexical error propagates with the state mutated up
to the failure point. -/
def tokenizeSource (st : Anatomize) (source : List Char) :
    Except (LexErr × Anatomize) Anatomize :=
  match tokenizeLoop st.TokenTypes source 0 [] with
  | .error (e, buf, idx) =>
    .error (e, { st with buffer := source, index := idx,
                         lookaheadBuffer := buf, lookaheadIndex := 0 })
  | .ok (buf, idx) =>
    .ok { st with buffer := source, index := idx,
                  lookaheadBuffer := buf, lookaheadIndex := 0 }

/-- The `Tokenizer.peekToken` method:
`this.#lookaheadBuffer[this.#lookaheadIndex + offset] ?? null` (an
out-of-range access and a stored `null` both yield `null`). -/
def peekToken (st : Anatomize) (offset : Nat) : Option Token :=
  (st.lookaheadBuffer.get? (st.lookaheadIndex + offset)).join

/-- The `Tokenizer.nextToken` method: `null` without moving when the read
cursor is past the end, otherwise the entry at the read cursor with the
cursor advanced by one. -/
def nextToken (st : Anatomize) : Option Token × Anatomize :=
  if h : st.lookaheadIndex < st.lookaheadBuffer.length then
    (st.lookaheadBuffer.get ⟨st.lookaheadIndex, h⟩,
     { st with lookaheadIndex := st.lookaheadIndex + 1 })
  else (none, st)

/-- Mode errors: `notParsing` is the SyntaxError of `#errorIfNotParsing`,
`whileParsing` the one of `#errorIfParsing`. -/
inductive ModeErr where
  | notParsing
  | whileParsing
deriving DecidableEq, Repr

/-- The do/while loop of the facade `peek` method: fetch the token at the
current offset, and keep incrementing the (local) offset while the
fetched token exists and is hidden.  The trailing
`Token?.hidden ? null : Token` of the source is the identity at loop
exit, where the token is absent or not hidden. -/
def peekLoop (st : Anatomize) (offset : Nat) : Option Token :=
  match h : peekToken st offset with
  | some t => if t.hidden then peekLoop st (offset + 1) else some t
  | none => none
termination_by st.lookaheadBuffer.length - (st.lookaheadIndex + offset)
decreasing_by
  have hlt : st.lookaheadIndex + offset < st.lookaheadBuffer.length := by
    by_contra hge
    rw [peekToken, List.get?_eq_getElem?, List.getElem?_eq_none (by omega)] at h
    simp at h
  omega

/-- The facade `peek` method: mode guard, then the hidden-skipping walk.
The method performs no assignment to any facade field, so it is embedded
as a pure function of the state. -/
def peek (st : Anatomize) (offset : Nat) : Except ModeErr (Option Token) :=
  if st.parsing then .ok (peekLoop st offset) else .error .notParsing

/-- The facade `isEOF` method: mode guard, then `!this.peek()`. -/
def isEOF (st : Anatomize) : Except ModeErr Bool :=
  if st.parsing then (peek st 0).map Option.isNone else .error .notParsing

/-- The facade `isPeekType` method:
`this.peek(offset)?.type === tokenType` - no mode guard of its own, the
one inside `peek` applies. -/
def isPeekType (st : Anatomize) (tokenType : List Char) (offset : Nat) :
    Except ModeErr Bool :=
  (peek st offset).map (fun t? => t?.elim false (fun t => t.type = tokenType))

/-- Errors the facade `read` method can throw: the mode guard, the
`Unexpected End of Input` SyntaxError, and the `Unexpected Token`
SyntaxError carrying the expected and the actually consumed type. -/
inductive ReadErr where
  | mode
  | endOfInput
  | wrongToken (expected got : List Char)
deriving DecidableEq, Repr

theorem nextToken_some {st st' : Anatomize} {t : Token}
    (h : nextToken st = (some t, st')) :
    st.lookaheadIndex < st.lookaheadBuffer.length ∧
      st' = { st with lookaheadIndex := st.lookaheadIndex + 1 } := by
  by_cases hlt : st.lookaheadIndex < st.lookaheadBuffer.length
  · rw [nextToken, dif_pos hlt] at h
    exact ⟨hlt, (Prod.mk.injEq .. ▸ h).2.symm⟩
  · rw [nextToken, dif_neg hlt] at h
    exact absurd (Prod.mk.injEq .. ▸ h).1 (by simp)

/-- The do/while loop of the facade `read` method: consume via `nextToken`
while the consumed token exists, is hidden, and its type differs from the
requested one; return the token that stopped the loop (or `null`)
together with the state after all those consumptions. -/
def readLoop (st : Anatomize) (tokenType : List Char) : Option Token × Anatomize :=
  match h : nextToken st with
  | (some t, st') =>
    if t.hidden ∧ t.type ≠ tokenType then readLoop st' tokenType else (some t, st')
  | (none, st') => (none, st')
termination_by st.lookaheadBuffer.length - st.lookaheadIndex
decreasing_by
  obtain ⟨hlt, rfl⟩ := nextToken_some h
  simp
  omega

/-- The facade `read` method: mode guard, the consuming loop, then the
end-of-input check followed by the type check.  The state in which an
error propagates retains every cursor advance the loop performed. -/
def Anatomize.read (st : Anatomize) (tokenType : List Char) : Except ReadErr Token × Anatomize :=
  if st.parsing then
    match readLoop st tokenType with
    | (some t, st') =>
      if t.type = tokenType then (.ok t, st')
      else (.error (.wrongToken tokenType t.type), st')
    | (none, st') => (.error .endOfInput, st')
  else (.error .mode, st)

/-- The registration error of `#addTokenType` (the matcher-type check of
the source cannot fail here because `Matcher` is already a sum type). -/
inductive RegErr where
  | whileParsing
deriving DecidableEq, Repr

/-- The `#addTokenType` method: `#errorIfParsing` guard, then push the new
definition onto the registry. -/
def addTokenType (st : Anatomize) (name : Option (List Char)) (matcher : Matcher)
    (hidden : Bool) : Except RegErr Anatomize :=
  if st.parsing then .error .whileParsing
  else .ok { st with TokenTypes := st.TokenTypes ++ [⟨name, matcher, hidden⟩] }

/-- The `registerToken` method. -/
def registerToken (st : Anatomize) (name : Option (List Char)) (matcher : Matcher) :
    Except RegErr Anatomize :=
  addTokenType st name matcher false

/-- The `registerHiddenToken` method. -/
def registerHiddenToken (st : Anatomize) (name : Option (List Char)) (matcher : Matcher) :
    Except RegErr Anatomize :=
  addTokenType st name matcher true

/-- Outcome of one `parse` call, with the facade state at the moment the
call returns or its exception escapes: a normal return, the
`#errorIfParsing` rejection of a re-entrant call, a tokenization error
(which propagates from OUTSIDE the try/finally), or an exception thrown
by the user's main function (caught by the finally). -/
inductive ParseOutcome (α : Type) where
  | ok (value : α) (st : Anatomize)
  | modeErr (st : Anatomize)
  | lexErr (e : LexErr) (st : Anatomize)
  | mainErr (st : Anatomize)

/-- The facade `parse` method.  The user's main function is modelled as an
arbitrary transformer of the facade state that either returns a value or
throws, in both cases with the state its facade calls produced.  Note the
source calls `Tokenizer.initialize` after setting `#parsing = true` but
BEFORE entering the try/finally, so on the `lexErr` path no reset of the
flag happens. -/
def parse {α : Type} (st : Anatomize)
    (main : Anatomize → Except Anatomize (α × Anatomize)) (source : List Char) :
    ParseOutcome α :=
  if st.parsing then .modeErr st
  else
    match tokenizeSource { st with parsing := true } source with
    | .error (e, st2) => .lexErr e st2
    | .ok st2 =>
      match main st2 with
      | .ok (v, st3) => .ok v { st3 with parsing := false }
      | .error st3 => .mainErr { st3 with parsing := false }
theorem readToken_eq_error {defs : List TokenType} {buffer : List Char} {index : Nat}
    {e : LexErr} (h : tryDefs defs (buffer.drop index) = .error e) :
    readToken defs buffer index = .error e := by
  rw [readToken]
  split
  · rename_i e2 h2
    rw [h] at h2
    injection h2 with h3
    rw [h3]
  · rename_i tt v l h2
    rw [h] at h2
    cases h2

theorem readToken_eq_emit {defs : List TokenType} {buffer : List Char} {index : Nat}
    {tt : TokenType} {v : Option (List Char)} {len : Nat}
    (h : tryDefs defs (buffer.drop index) = .ok (tt, v, len))
    (hname : ¬(nameFalsy tt.name = true ∨ v = none)) :
    readToken defs buffer index =
      .ok (some { type := tt.name.getD [], value := v.getD [], hidden := tt.hidden },
           index + len) := by
  rw [readToken]
  split
  · rename_i e2 h2
    rw [h] at h2
    cases h2
  · rename_i tt2 v2 l2 h2
    rw [h] at h2
    injection h2 with h3
    obtain ⟨rfl, rfl, rfl⟩ := Prod.mk.injEq .. ▸ h3
    rw [if_neg hname]

theorem readToken_eq_discard_eof {defs : List TokenType} {buffer : List Char} {index : Nat}
    {tt : TokenType} {v : Option (List Char)} {len : Nat}
    (h : tryDefs defs (buffer.drop index) = .ok (tt, v, len))
    (hname : nameFalsy tt.name = true ∨ v = none)
    (heof : buffer.length ≤ index + len) :
    readToken defs buffer index = .ok (none, index + len) := by
  rw [readToken]
  split
  · rename_i e2 h2
    rw [h] at h2
    cases h2
  · rename_i tt2 v2 l2 h2
    rw [h] at h2
    injection h2 with h3
    obtain ⟨rfl, rfl, rfl⟩ := Prod.mk.injEq .. ▸ h3
    rw [if_pos hname, if_pos heof]

theorem readToken_eq_discard_step {defs : List TokenType} {buffer : List Char} {index : Nat}
    {tt : TokenType} {v : Option (List Char)} {len : Nat}
    (h : tryDefs defs (buffer.drop index) = .ok (tt, v, len))
    (hname : nameFalsy tt.name = true ∨ v = none)
    (heof : ¬ buffer.length ≤ index + len) :
    readToken defs buffer index = readToken defs buffer (index + len) := by
  rw [readToken]
  split
  · rename_i e2 h2
    rw [h] at h2
    cases h2
  · rename_i tt2 v2 l2 h2
    rw [h] at h2
    injection h2 with h3
    obtain ⟨rfl, rfl, rfl⟩ := Prod.mk.injEq .. ▸ h3
    rw [if_pos hname, if_neg heof]

theorem tokenizeLoop_eq_done {defs : List TokenType} {buffer : List Char} {index : Nat}
    {acc : List (Option Token)} (h : buffer.length ≤ index) :
    tokenizeLoop defs buffer index acc = .ok (acc, index) := by
  rw [tokenizeLoop, if_pos h]

theorem tokenizeLoop_eq_error {defs : List TokenType} {buffer : List Char} {index : Nat}
    {acc : List (Option Token)} {e : LexErr} (hlt : ¬ buffer.length ≤ index)
    (h : readToken defs buffer index = .error e) :
    tokenizeLoop defs buffer index acc = .error (e, acc, index) := by
  rw [tokenizeLoop, if_neg hlt]
  split
  · rename_i e2 h2
    rw [h] at h2
    injection h2 with h3
    rw [h3]
  · rename_i t i h2
    rw [h] at h2
    cases h2

theorem tokenizeLoop_eq_step {defs : List TokenType} {buffer : List Char} {index : Nat}
    {acc : List (Option Token)} {tok : Option Token} {index2 : Nat}
    (hlt : ¬ buffer.length ≤ index)
    (h : readToken defs buffer index = .ok (tok, index2)) :
    tokenizeLoop defs buffer index acc = tokenizeLoop defs buffer index2 (acc ++ [tok]) := by
  rw [tokenizeLoop, if_neg hlt]
  split
  · rename_i e2 h2
    rw [h] at h2
    cases h2
  · rename_i t i h2
    rw [h] at h2
    injection h2 with h3
    obtain ⟨rfl, rfl⟩ := Prod.mk.injEq .. ▸ h3
    rfl

theorem peekLoop_eq_none {st : Anatomize} {offset : Nat}
    (h : peekToken st offset = none) : peekLoop st offset = none := by
  rw [peekLoop]
  split
  · rename_i t h2
    rw [h] at h2
    cases h2
  · rfl

theorem peekLoop_eq_skip {st : Anatomize} {offset : Nat} {t : Token}
    (h : peekToken st offset = some t) (hh : t.hidden = true) :
    peekLoop st offset = peekLoop st (offset + 1) := by
  rw [peekLoop]
  split
  · rename_i t2 h2
    rw [h] at h2
    injection h2 with h3
    subst h3
    rw [if_pos hh]
  · rename_i h2
    rw [h] at h2
    cases h2

theorem peekLoop_eq_found {st : Anatomize} {offset : Nat} {t : Token}
    (h : peekToken st offset = some t) (hh : t.hidden = false) :
    peekLoop st offset = some t := by
  rw [peekLoop]
  split
  · rename_i t2 h2
    rw [h] at h2
    injection h2 with h3
    subst h3
    rw [if_neg (by rw [hh]; exact Bool.false_ne_true)]
  · rename_i h2
    rw [h] at h2
    cases h2

theorem readLoop_eq_none {st st' : Anatomize} {tokenType : List Char}
    (h : nextToken st = (none, st')) : readLoop st tokenType = (none, st') := by
  rw [readLoop]
  split
  · rename_i t st2 h2
    rw [h] at h2
    cases Prod.mk.injEq .. ▸ h2 |>.1
  · rename_i st2 h2
    rw [h] at h2
    obtain ⟨-, rfl⟩ := Prod.mk.injEq .. ▸ h2
    rfl

theorem readLoop_eq_skip {st st' : Anatomize} {tokenType : List Char} {t : Token}
    (h : nextToken st = (some t, st')) (hh : t.hidden = true) (hne : t.type ≠ tokenType) :
    readLoop st tokenType = readLoop st' tokenType := by
  rw [readLoop]
  split
  · rename_i t2 st2 h2
    rw [h] at h2
    obtain ⟨h3, rfl⟩ := Prod.mk.injEq .. ▸ h2
    injection h3 with h3
    subst h3
    rw [if_pos ⟨hh, hne⟩]
  · rename_i st2 h2
    rw [h] at h2
    cases Prod.mk.injEq .. ▸ h2 |>.1

theorem readLoop_eq_stop {st st' : Anatomize} {tokenType : List Char} {t : Token}
    (h : nextToken st = (some t, st')) (hstop : ¬(t.hidden = true ∧ t.type ≠ tokenType)) :
    readLoop st tokenType = (some t, st') := by
  rw [readLoop]
  split
  · rename_i t2 st2 h2
    rw [h] at h2
    obtain ⟨h3, rfl⟩ := Prod.mk.injEq .. ▸ h2
    injection h3 with h3
    subst h3
    rw [if_neg hstop]
  · rename_i st2 h2
    rw [h] at h2
    cases Prod.mk.injEq .. ▸ h2 |>.1

theorem nextToken_eq_of_get {st : Anatomize} {e : Option Token}
    (h : st.lookaheadBuffer.get? st.lookaheadIndex = some e) :
    nextToken st = (e, { st with lookaheadIndex := st.lookaheadIndex + 1 }) := by
  have hlt : st.lookaheadIndex < st.lookaheadBuffer.length := by
    by_contra hge
    rw [List.get?_eq_getElem?, List.getElem?_eq_none (by omega)] at h
    cases h
  rw [nextToken, dif_pos hlt]
  rw [List.get?_eq_get hlt] at h
  injection h with h
  rw [h]

theorem nextToken_eq_exhausted {st : Anatomize}
    (h : st.lookaheadBuffer.length ≤ st.lookaheadIndex) :
    nextToken st = (none, st) := by
  rw [nextToken, dif_neg (by omega)]

theorem peekToken_some_lt {st : Anatomize} {offset : Nat} {t : Token}
    (h : peekToken st offset = some t) :
    st.lookaheadIndex + offset < st.lookaheadBuffer.length := by
  by_contra hge
  rw [peekToken, List.get?_eq_getElem?, List.getElem?_eq_none (by omega)] at h
  simp at h

theorem peekToken_mem {st : Anatomize} {offset : Nat} {t : Token}
    (h : peekToken st offset = some t) : some t ∈ st.lookaheadBuffer := by
  rw [peekToken] at h
  cases hg : st.lookaheadBuffer.get? (st.lookaheadIndex + offset) with
  | none => rw [hg] at h; cases h
  | some e =>
    rw [hg] at h
    have he : e = some t := by simpa using h
    rw [he] at hg
    exact List.get?_mem hg

theorem peekToken_eq_none {st : Anatomize} {offset : Nat}
    (h : st.lookaheadBuffer.length ≤ st.lookaheadIndex + offset) :
    peekToken st offset = none := by
  rw [peekToken, List.get?_eq_getElem?, List.getElem?_eq_none (by omega)]
  rfl

theorem peekLoop_walk_aux (st : Anatomize) :
    ∀ n offset, st.lookaheadBuffer.length - (st.lookaheadIndex + offset) ≤ n →
      ∃ j, offset ≤ j ∧
        (∀ k, offset ≤ k → k < j → ∃ ht, peekToken st k = some ht ∧ ht.hidden = true) ∧
        peekLoop st offset = peekToken st j ∧
        (∀ t, peekToken st j = some t → t.hidden = false) := by
  intro n
  induction n with
  | zero =>
    intro offset hle
    have hnone : peekToken st offset = none := peekToken_eq_none (by omega)
    refine ⟨offset, le_refl _, fun k hk1 hk2 => absurd hk2 (by omega), ?_, ?_⟩
    · rw [peekLoop_eq_none hnone, hnone]
    · intro t ht
      rw [hnone] at ht
      cases ht
  | succ n ih =>
    intro offset hle
    cases hpt : peekToken st offset with
    | none =>
      refine ⟨offset, le_refl _, fun k hk1 hk2 => absurd hk2 (by omega), ?_, ?_⟩
      · rw [peekLoop_eq_none hpt, hpt]
      · intro t ht
        rw [hpt] at ht
        cases ht
    | some t =>
      have hlt := peekToken_some_lt hpt
      by_cases hh : t.hidden = true
      · obtain ⟨j, hj1, hj2, hj3, hj4⟩ := ih (offset + 1) (by omega)
        refine ⟨j, by omega, ?_, ?_, hj4⟩
        · intro k hk1 hk2
          rcases Nat.eq_or_lt_of_le hk1 with heq | hlt2
          · exact heq ▸ ⟨t, hpt, hh⟩
          · exact hj2 k (by omega) hk2
        · rw [peekLoop_eq_skip hpt hh]
          exact hj3
      · refine ⟨offset, le_refl _, fun k hk1 hk2 => absurd hk2 (by omega), ?_, ?_⟩
        · rw [peekLoop_eq_found hpt (by simpa using hh), hpt]
        · intro u hu
          rw [hpt] at hu
          injection hu with hu
          rw [← hu]
          simpa using hh

theorem peekLoop_walk (st : Anatomize) (offset : Nat) :
    ∃ j, offset ≤ j ∧
      (∀ k, offset ≤ k → k < j → ∃ ht, peekToken st k = some ht ∧ ht.hidden = true) ∧
      peekLoop st offset = peekToken st j ∧
      (∀ t, peekToken st j = some t → t.hidden = false) :=
  peekLoop_walk_aux st (st.lookaheadBuffer.length - (st.lookaheadIndex + offset)) offset
    (le_refl _)

theorem peekLoop_some_hidden_false {st : Anatomize} {offset : Nat} {t : Token}
    (h : peekLoop st offset = some t) : t.hidden = false := by
  obtain ⟨j, -, -, hj3, hj4⟩ := peekLoop_walk st offset
  exact hj4 t (hj3 ▸ h)

theorem peekLoop_some_found {st : Anatomize} {offset : Nat} {t : Token}
    (h : peekLoop st offset = some t) :
    ∃ j, offset ≤ j ∧ peekToken st j = some t ∧ t.hidden = false ∧
      peekLoop st j = some t := by
  obtain ⟨j, hj1, -, hj3, hj4⟩ := peekLoop_walk st offset
  rw [h] at hj3
  refine ⟨j, hj1, hj3.symm, hj4 t hj3.symm, peekLoop_eq_found hj3.symm (hj4 t hj3.symm)⟩

theorem peekLoop_mem {st : Anatomize} {offset : Nat} {t : Token}
    (h : peekLoop st offset = some t) : some t ∈ st.lookaheadBuffer := by
  obtain ⟨j, -, hj, -, -⟩ := peekLoop_some_found h
  exact peekToken_mem hj

theorem readLoop_run (T : List Char) :
    ∀ (n : Nat) (st : Anatomize) (t : Token),
      (∀ k, k < n → ∃ hk : Token,
         st.lookaheadBuffer.get? (st.lookaheadIndex + k) = some (some hk) ∧
         hk.hidden = true ∧ hk.type ≠ T) →
      st.lookaheadBuffer.get? (st.lookaheadIndex + n) = some (some t) →
      ¬(t.hidden = true ∧ t.type ≠ T) →
      readLoop st T = (some t, { st with lookaheadIndex := st.lookaheadIndex + n + 1 }) := by
  intro n
  induction n with
  | zero =>
    intro st t hhid ht hstop
    have hnext := nextToken_eq_of_get
      (show st.lookaheadBuffer.get? st.lookaheadIndex = some (some t) from by simpa using ht)
    rw [readLoop_eq_stop hnext hstop]
  | succ n ih =>
    intro st t hhid ht hstop
    obtain ⟨h0, hget0, hhid0, hne0⟩ := hhid 0 (by omega)
    rw [Nat.add_zero] at hget0
    have hnext := nextToken_eq_of_get
      (show st.lookaheadBuffer.get? st.lookaheadIndex = some (some h0) from hget0)
    rw [readLoop_eq_skip hnext hhid0 hne0]
    have hres := ih { st with lookaheadIndex := st.lookaheadIndex + 1 } t
      (fun k hk => by
        obtain ⟨hk2, hg, hh, hn⟩ := hhid (k + 1) (by omega)
        exact ⟨hk2, by simpa [Nat.add_assoc, Nat.add_comm 1 k] using hg, hh, hn⟩)
      (by simpa [Nat.add_assoc, Nat.add_comm 1 n] using ht)
      hstop
    rw [hres]
    have harith : st.lookaheadIndex + 1 + n + 1 = st.lookaheadIndex + (n + 1) + 1 := by omega
    rw [harith]

theorem readLoop_mem_aux (T : List Char) :
    ∀ n (st st' : Anatomize) (t : Token),
      st.lookaheadBuffer.length - st.lookaheadIndex ≤ n →
      readLoop st T = (some t, st') → some t ∈ st.lookaheadBuffer := by
  intro n
  induction n with
  | zero =>
    intro st st' t hle h
    rw [readLoop_eq_none (nextToken_eq_exhausted (by omega))] at h
    cases (Prod.mk.injEq .. ▸ h).1
  | succ n ih =>
    intro st st' t hle h
    by_cases hlt : st.lookaheadIndex < st.lookaheadBuffer.length
    · cases hg : st.lookaheadBuffer.get? st.lookaheadIndex with
      | none =>
        rw [List.get?_eq_getElem?, List.getElem?_eq_none_iff] at hg
        omega
      | some e =>
        have hnext := nextToken_eq_of_get hg
        cases e with
        | none =>
          rw [readLoop_eq_none hnext] at h
          cases (Prod.mk.injEq .. ▸ h).1
        | some u =>
          by_cases hskip : u.hidden = true ∧ u.type ≠ T
          · rw [readLoop_eq_skip hnext hskip.1 hskip.2] at h
            exact ih { st with lookaheadIndex := st.lookaheadIndex + 1 } st' t
              (by show st.lookaheadBuffer.length - (st.lookaheadIndex + 1) ≤ n; omega) h
          · rw [readLoop_eq_stop hnext hskip] at h
            obtain ⟨h1, -⟩ := Prod.mk.injEq .. ▸ h
            injection h1 with h1
            exact h1 ▸ List.get?_mem hg
    · rw [readLoop_eq_none (nextToken_eq_exhausted (by omega))] at h
      cases (Prod.mk.injEq .. ▸ h).1

theorem readLoop_mem {st st' : Anatomize} {T : List Char} {t : Token}
    (h : readLoop st T = (some t, st')) : some t ∈ st.lookaheadBuffer :=
  readLoop_mem_aux T st.lookaheadBuffer.length st st' t (by omega) h

theorem readToken_value_ne_nil_aux (defs : List TokenType) (buffer : List Char) :
    ∀ n index tok i2, buffer.length - index ≤ n →
      readToken defs buffer index = .ok (some tok, i2) → tok.value ≠ [] := by
  intro n
  induction n with
  | zero =>
    intro index tok i2 hle hr
    rw [readToken] at hr
    split at hr
    · exact absurd hr (by simp)
    · rename_i tt value length h
      have hlen := tryDefs_ok_len h
      split at hr
      · split at hr
        · simp at hr
        · rename_i heof
          omega
      · rename_i hname
        obtain ⟨h1, -⟩ := Prod.mk.injEq .. ▸ (Except.ok.injEq .. ▸ hr)
        cases value with
        | none => exact absurd (Or.inr rfl) hname
        | some w =>
          injection h1 with h1
          rw [← h1]
          simpa using tryDefs_ok_val h
  | succ n ih =>
    intro index tok i2 hle hr
    rw [readToken] at hr
    split at hr
    · exact absurd hr (by simp)
    · rename_i tt value length h
      have hlen := tryDefs_ok_len h
      split at hr
      · split at hr
        · simp at hr
        · exact ih (index + length) tok i2 (by omega) hr
      · rename_i hname
        obtain ⟨h1, -⟩ := Prod.mk.injEq .. ▸ (Except.ok.injEq .. ▸ hr)
        cases value with
        | none => exact absurd (Or.inr rfl) hname
        | some w =>
          injection h1 with h1
          rw [← h1]
          simpa using tryDefs_ok_val h

theorem readToken_value_ne_nil {defs : List TokenType} {buffer : List Char} {index i2 : Nat}
    {tok : Token} (h : readToken defs buffer index = .ok (some tok, i2)) :
    tok.value ≠ [] :=
  readToken_value_ne_nil_aux defs buffer buffer.length index tok i2 (by omega) h

/-- Every token stored in a lookahead buffer has a non-empty value. -/
def BufValuesNonEmpty (buf : List (Option Token)) : Prop :=
  ∀ t : Token, some t ∈ buf → t.value ≠ []

theorem tokenizeLoop_nonempty_aux (defs : List TokenType) (buffer : List Char) :
    ∀ n index acc buf i2, buffer.length - index ≤ n →
      BufValuesNonEmpty acc →
      tokenizeLoop defs buffer index acc = .ok (buf, i2) →
      BufValuesNonEmpty buf := by
  intro n
  induction n with
  | zero =>
    intro index acc buf i2 hle hacc h
    rw [tokenizeLoop_eq_done (by omega)] at h
    obtain ⟨h1, -⟩ := Prod.mk.injEq .. ▸ (Except.ok.injEq .. ▸ h)
    exact h1 ▸ hacc
  | succ n ih =>
    intro index acc buf i2 hle hacc h
    by_cases hlt : buffer.length ≤ index
    · rw [tokenizeLoop_eq_done hlt] at h
      obtain ⟨h1, -⟩ := Prod.mk.injEq .. ▸ (Except.ok.injEq .. ▸ h)
      exact h1 ▸ hacc
    · cases hr : readToken defs buffer index with
      | error e =>
        rw [tokenizeLoop_eq_error hlt hr] at h
        cases h
      | ok p =>
        obtain ⟨tok, index2⟩ := p
        rw [tokenizeLoop_eq_step hlt hr] at h
        have hadv := readToken_advance hr
        refine ih index2 (acc ++ [tok]) buf i2 (by omega) ?_ h
        intro t ht
        rcases List.mem_append.mp ht with hmem | hmem
        · exact hacc t hmem
        · have : some t = tok := by simpa using hmem
          exact readToken_value_ne_nil (this ▸ hr)

theorem countLeading_eq_length {cs l : List Char} (h : ∀ c ∈ l, c ∈ cs) :
    countLeading cs l = l.length := by
  induction l with
  | nil => rfl
  | cons c rest ih =>
    rw [countLeading, if_pos (h c (by simp))]
    rw [ih (fun d hd => h d (by simp [hd]))]
    rfl

theorem tryDefs_append_first (defs1 defs2 : List TokenType) (d : TokenType)
    (input : List Char) (v : Option (List Char)) (len : Nat)
    (hpre : ∀ d2 ∈ defs1, ∃ l2, runMatcher d2.matcher input = .ok (none, l2) ∧ l2 < 1)
    (hm : runMatcher d.matcher input = .ok (v, len))
    (hmatch : ¬(v = none ∧ len < 1)) :
    tryDefs (defs1 ++ d :: defs2) input = .ok (d, v, len) := by
  induction defs1 with
  | nil =>
    rw [List.nil_append, tryDefs, hm]
    dsimp only
    rw [if_neg hmatch]
  | cons d2 rest ih =>
    obtain ⟨l2, hm2, hl2⟩ := hpre d2 (by simp)
    rw [List.cons_append, tryDefs, hm2]
    dsimp only
    rw [if_pos ⟨rfl, hl2⟩]
    exact ih (fun d3 hd3 => hpre d3 (by simp [hd3]))

/-- Decimal digit characters (the JS class \d restricted to ASCII). -/
def digits : List Char := ['0', '1', '2', '3', '4', '5', '6', '7', '8', '9']

/-- Whitespace characters modelling the JS class \s. -/
def wsChars : List Char := [' ', '\t', '\n', '\r']

/-- The registration `registerToken(null, /^\s+/)` from the spec's discard
example: no name, anchored one-or-more whitespace, not hidden. -/
def wsDef : TokenType := ⟨none, .regex ⟨true, .plus wsChars⟩, false⟩

/-- A NUMBER token type whose fixed pattern `/\d/` lacks the `^` anchor. -/
def numSearchDef : TokenType :=
  ⟨some ['N', 'U', 'M', 'B', 'E', 'R'], .regex ⟨false, .cls digits⟩, false⟩

/-- A NUMBER token type with the anchored fixed pattern `/^\d+/`. -/
def numAnchoredDef : TokenType :=
  ⟨some ['N', 'U', 'M', 'B', 'E', 'R'], .regex ⟨true, .plus digits⟩, false⟩

/-- Claim C2 as stated, formalised over the embedding: whenever the
definition loop accepts a match with a value through ANY registered
fixed-pattern (RegExp) matcher, the matched value sits at the very start
of the unconsumed remainder INPUT (is a prefix of it), never at a later
position inside it. -/
def FixedPatternAnchoredClaim : Prop :=
  ∀ (defs : List TokenType) (input w : List Char) (tt : TokenType) (r : JsRegex) (len : Nat),
    tryDefs defs input = .ok (tt, some w, len) → tt.matcher = .regex r → w <+: input

/-- Claim C2, counterexample: with the un-anchored fixed pattern `/\d/`
registered as NUMBER, tokenizing the remainder "a5" accepts the match
"5", which is NOT a prefix of "a5" (the match occurs at position 1), and
`#readToken` emits a NUMBER token while advancing the position only by
the match length 1 - the claim as stated is false. -/
theorem C2_counterexample :
    ¬ FixedPatternAnchoredClaim ∧
    tryDefs [numSearchDef] ['a', '5'] = .ok (numSearchDef, some ['5'], 1) ∧
    ¬ (['5'] <+: ['a', '5']) ∧
    readToken [numSearchDef] ['a', '5'] 0 =
      .ok (some ⟨['N', 'U', 'M', 'B', 'E', 'R'], ['5'], false⟩, 1) := by
  have h1 : tryDefs [numSearchDef] ['a', '5'] = .ok (numSearchDef, some ['5'], 1) := by rfl
  have h2 : ¬ (['5'] <+: ['a', '5']) := by decide
  refine ⟨?_, h1, h2, ?_⟩
  · intro hcl
    exact h2 (hcl [numSearchDef] ['a', '5'] ['5'] numSearchDef ⟨false, .cls digits⟩ 1 h1 rfl)
  · have hname : ¬(nameFalsy numSearchDef.name = true ∨ (some ['5'] : Option (List Char)) = none) := by
      decide
    have h3 : readToken [numSearchDef] ['a', '5'] 0 =
        .ok (some ⟨numSearchDef.name.getD [], (some ['5']).getD [], numSearchDef.hidden⟩, 0 + 1) :=
      readToken_eq_emit h1 hname
    simpa using h3

/-- Claim C2 (amended): restricted to `^`-anchored fixed patterns - the
form the spec's definition of a fixed pattern ("anchored-at-start string
pattern") prescribes - the accepted value is a prefix of the unconsumed
remainder, the reported length is exactly the match length, and a named
match emits the token while advancing the source position by exactly that
length. -/
theorem C2_anchored_match (defs : List TokenType) (buffer : List Char) (index : Nat)
    (tt : TokenType) (r : JsRegex) (w : List Char) (len : Nat)
    (h : tryDefs defs (buffer.drop index) = .ok (tt, some w, len))
    (hm : tt.matcher = .regex r) (hr : r.anchored = true) :
    (w <+: buffer.drop index) ∧ len = w.length ∧
    (¬ nameFalsy tt.name = true →
      readToken defs buffer index = .ok (some ⟨tt.name.getD [], w, tt.hidden⟩, index + len)) := by
  have hrun := (tryDefs_ok_run h).1
  rw [hm] at hrun
  simp only [runMatcher] at hrun
  cases hjm : r.jsMatch (buffer.drop index) with
  | none =>
    rw [hjm] at hrun
    cases hrun
  | some v =>
    rw [hjm] at hrun
    dsimp only at hrun
    by_cases hv : v = []
    · rw [if_pos hv] at hrun
      cases hrun
    · rw [if_neg hv] at hrun
      simp only [Except.ok.injEq, Prod.mk.injEq, Option.some.injEq] at hrun
      obtain ⟨rfl, rfl⟩ := hrun
      refine ⟨?_, rfl, ?_⟩
      · rw [JsRegex.jsMatch, if_pos hr] at hjm
        cases hma : r.core.matchAt (buffer.drop index) with
        | none =>
          rw [hma] at hjm
          cases hjm
        | some nn =>
          rw [hma] at hjm
          have hw : (buffer.drop index).take nn = v := by simpa using hjm
          exact hw ▸ ⟨(buffer.drop index).drop nn, List.take_append_drop nn (buffer.drop index)⟩
      · intro hname
        have h3 := readToken_eq_emit h (fun hc => by
          rcases hc with hc | hc
          · exact hname hc
          · cases hc)
        simpa using h3

/-- Witness for C2's amended theorem at the anchored pattern `/^\d+/` on
the remainder "5x": the match "5" is a prefix, has length 1, and the
NUMBER token is emitted with the position advanced from 0 to 1. -/
theorem C2_anchored_match_witness :
    (['5'] <+: List.drop 0 ['5', 'x']) ∧ 1 = (['5'] : List Char).length ∧
    readToken [numAnchoredDef] ['5', 'x'] 0 =
      .ok (some ⟨['N', 'U', 'M', 'B', 'E', 'R'], ['5'], false⟩, 0 + 1) := by
  have h := C2_anchored_match [numAnchoredDef] ['5', 'x'] 0 numAnchoredDef
    ⟨true, .plus digits⟩ ['5'] 1 (by rfl) rfl rfl
  exact ⟨h.1, h.2.1, by simpa using h.2.2 (by decide)⟩

/-- Claim C5: first-match-wins.  If every definition registered before `d`
reports no match on the unconsumed remainder (the `!tokenValue && 1 >
tokenLength` test fails them) and `d` reports a match, the definition
loop returns `d`'s result no matter what is registered after `d`, and a
named, valued match makes `#readToken` emit `d`'s token at that
position. -/
theorem C5_first_match_wins (defs1 defs2 : List TokenType) (d : TokenType)
    (buffer : List Char) (index : Nat) (v : Option (List Char)) (len : Nat)
    (hpre : ∀ d2 ∈ defs1, ∃ l2, runMatcher d2.matcher (buffer.drop index) = .ok (none, l2) ∧ l2 < 1)
    (hm : runMatcher d.matcher (buffer.drop index) = .ok (v, len))
    (hmatch : ¬(v = none ∧ len < 1)) :
    tryDefs (defs1 ++ d :: defs2) (buffer.drop index) = .ok (d, v, len) ∧
    (∀ w, v = some w → ¬ nameFalsy d.name = true →
      readToken (defs1 ++ d :: defs2) buffer index =
        .ok (some ⟨d.name.getD [], w, d.hidden⟩, index + len)) := by
  have h1 := tryDefs_append_first defs1 defs2 d (buffer.drop index) v len hpre hm hmatch
  refine ⟨h1, fun w hw hname => ?_⟩
  subst hw
  have h3 := readToken_eq_emit h1 (fun hc => by
    rcases hc with hc | hc
    · exact hname hc
    · cases hc)
  simpa using h3

/-- Definition A, registered first, matching the single character x. -/
def defA : TokenType := ⟨some ['A'], .regex ⟨true, .cls ['x']⟩, false⟩

/-- Definition B, registered second, also matching the single character x. -/
def defB : TokenType := ⟨some ['B'], .regex ⟨true, .cls ['x']⟩, false⟩

/-- Witness for C5 where both A (registered first) and B (registered
second) match the remainder "x": the loop picks A. -/
theorem C5_first_match_wins_witness :
    tryDefs [defA, defB] (List.drop 0 ['x']) = .ok (defA, some ['x'], 1) ∧
    readToken [defA, defB] ['x'] 0 = .ok (some ⟨['A'], ['x'], false⟩, 0 + 1) := by
  have h := C5_first_match_wins [] [defB] defA ['x'] 0 (some ['x']) 1
    (fun d2 hd2 => absurd hd2 (by simp)) (by rfl) (by simp)
  exact ⟨h.1, by simpa using h.2 ['x'] rfl (by decide)⟩

/-- A facade whose lookahead holds no token at or after the read cursor
observes an empty stream: `peek` yields nothing at every offset and
`isEOF()` is true. -/
theorem emptyObservations {st2 : Anatomize} (hp : st2.parsing = true)
    (hb : ∀ k, peekToken st2 k = none) :
    (∀ k, peek st2 k = .ok none) ∧ isEOF st2 = .ok true := by
  have hall : ∀ k, peek st2 k = .ok none := fun k => by
    rw [peek, if_pos hp, peekLoop_eq_none (hb k)]
  refine ⟨hall, ?_⟩
  rw [isEOF, if_pos hp, peek, if_pos hp, peekLoop_eq_none (hb 0)]
  rfl

/-- Facade state with only `registerToken(null, /^\s+/)` registered, as it
stands when `parse` has set the mode flag and is about to tokenize. -/
def st6 : Anatomize := ⟨[wsDef], [], 0, [], 0, true⟩

/-- Claim C6: discard idempotence.  For every whitespace-only source (the
registry being `null` with the fixed pattern `/^\s+/`), tokenization
succeeds, no token is stored in the lookahead buffer, `peek` yields
nothing at every offset, and `isEOF()` is immediately true. -/
theorem C6_discard_idempotence (source : List Char) (hws : ∀ c ∈ source, c ∈ wsChars) :
    ∃ st2, tokenizeSource st6 source = .ok st2 ∧
      (∀ t : Token, ¬ some t ∈ st2.lookaheadBuffer) ∧
      (∀ k, peek st2 k = .ok none) ∧
      isEOF st2 = .ok true := by
  cases source with
  | nil =>
    refine ⟨{ st6 with buffer := [], index := 0, lookaheadBuffer := [], lookaheadIndex := 0 }, ?_, ?_, ?_, ?_⟩
    · unfold tokenizeSource
      rw [tokenizeLoop_eq_done (by simp)]
    · simp
    · exact (emptyObservations rfl (fun k => peekToken_eq_none (by simp))).1
    · exact (emptyObservations rfl (fun k => peekToken_eq_none (by simp))).2
  | cons c cs =>
    have hcount : countLeading wsChars (c :: cs) = (c :: cs).length :=
      countLeading_eq_length hws
    have hmatch : (RCore.plus wsChars).matchAt (c :: cs) = some (c :: cs).length := by
      show (let n := countLeading wsChars (c :: cs); if n = 0 then none else some n) = _
      rw [hcount]
      simp
    have hjs : (JsRegex.mk true (.plus wsChars)).jsMatch (c :: cs) = some (c :: cs) := by
      rw [JsRegex.jsMatch, if_pos rfl, hmatch]
      simp
    have hrm : runMatcher wsDef.matcher (c :: cs) = .ok (some (c :: cs), (c :: cs).length) := by
      show runMatcher (.regex ⟨true, .plus wsChars⟩) (c :: cs) = _
      simp only [runMatcher]
      rw [hjs]
      dsimp only
      rw [if_neg (by simp)]
    have htd : tryDefs [wsDef] (c :: cs) = .ok (wsDef, some (c :: cs), (c :: cs).length) := by
      rw [tryDefs, hrm]
      dsimp only
      rw [if_neg (by simp)]
    have hrt : readToken [wsDef] (c :: cs) 0 = .ok (none, 0 + (c :: cs).length) :=
      readToken_eq_discard_eof htd (Or.inl rfl) (by simp)
    have hloop : tokenizeLoop [wsDef] (c :: cs) 0 [] = .ok ([none], 0 + (c :: cs).length) := by
      rw [tokenizeLoop_eq_step (by simp) hrt, tokenizeLoop_eq_done (by simp)]
      rfl
    refine ⟨{ st6 with buffer := c :: cs, index := 0 + (c :: cs).length, lookaheadBuffer := [none], lookaheadIndex := 0 }, ?_, ?_, ?_, ?_⟩
    · unfold tokenizeSource
      have hloop2 : tokenizeLoop st6.TokenTypes (c :: cs) 0 [] =
          .ok ([none], 0 + (c :: cs).length) := hloop
      rw [hloop2]
    · simp
    · refine (emptyObservations rfl (fun k => ?_)).1
      cases k with
      | zero => rfl
      | succ m => rfl
    · refine (emptyObservations rfl (fun k => ?_)).2
      cases k with
      | zero => rfl
      | succ m => rfl

/-- Witness for C6 on the two-space source "  ". -/
theorem C6_discard_idempotence_witness :
    ∃ st2, tokenizeSource st6 [' ', ' '] = .ok st2 ∧
      (∀ t : Token, ¬ some t ∈ st2.lookaheadBuffer) ∧
      (∀ k, peek st2 k = .ok none) ∧
      isEOF st2 = .ok true :=
  C6_discard_idempotence [' ', ' '] (by decide)

/-- Claim C3: during parsing, `peek(offset)` never returns a hidden token;
it walks forward from the raw position `readCursor + offset`, past the
consecutive run of hidden tokens there, and returns the entry that stops
the walk - the first non-hidden token, or nothing when the walk reaches a
gap or the end of the buffer.  The source method assigns to no facade
field, so it is embedded as a pure function: it cannot mutate the read
cursor or any other facade state. -/
theorem C3_peek_transparency (st : Anatomize) (offset : Nat) (hp : st.parsing = true) :
    (∀ t : Token, peek st offset = .ok (some t) → t.hidden = false) ∧
    ∃ j, offset ≤ j ∧
      (∀ k, offset ≤ k → k < j → ∃ ht : Token, peekToken st k = some ht ∧ ht.hidden = true) ∧
      peek st offset = .ok (peekToken st j) ∧
      (∀ t : Token, peekToken st j = some t → t.hidden = false) := by
  constructor
  · intro t hpk
    rw [peek, if_pos hp] at hpk
    injection hpk with hpk
    exact peekLoop_some_hidden_false hpk
  · obtain ⟨j, hj1, hj2, hj3, hj4⟩ := peekLoop_walk st offset
    exact ⟨j, hj1, hj2, by rw [peek, if_pos hp, hj3], hj4⟩

/-- A hidden token of type H with value x. -/
def tokH : Token := ⟨['H'], ['x'], true⟩

/-- A visible token of type V with value y. -/
def tokV : Token := ⟨['V'], ['y'], false⟩

/-- A parsing facade whose lookahead buffer holds the hidden `tokH`
followed by the visible `tokV`, read cursor at the start. -/
def stHV : Anatomize := ⟨[], ['x', 'y'], 2, [some tokH, some tokV], 0, true⟩

/-- Witness for C3 on the buffer [hidden H, visible V] at offset 0. -/
theorem C3_peek_transparency_witness :
    (∀ t : Token, peek stHV 0 = .ok (some t) → t.hidden = false) ∧
    ∃ j, 0 ≤ j ∧
      (∀ k, 0 ≤ k → k < j → ∃ ht : Token, peekToken stHV k = some ht ∧ ht.hidden = true) ∧
      peek stHV 0 = .ok (peekToken stHV j) ∧
      (∀ t : Token, peekToken stHV j = some t → t.hidden = false) :=
  C3_peek_transparency stHV 0 rfl

/-- Claim C4: what `read(T)` does with the raw token `t` at the read
cursor - it is consumed and skipped exactly when it is hidden with a type
other than T (reading then continues from the next position); a token of
type T, hidden or not, is consumed and returned; a non-hidden token of a
different type is consumed and the wrong-token SyntaxError is thrown. -/
theorem C4_read_hidden_fallback (st : Anatomize) (T : List Char) (t : Token)
    (hp : st.parsing = true)
    (ht : st.lookaheadBuffer.get? st.lookaheadIndex = some (some t)) :
    (t.hidden = true → t.type ≠ T →
       Anatomize.read st T = Anatomize.read { st with lookaheadIndex := st.lookaheadIndex + 1 } T) ∧
    (t.type = T →
       Anatomize.read st T = (.ok t, { st with lookaheadIndex := st.lookaheadIndex + 1 })) ∧
    (t.hidden = false → t.type ≠ T →
       Anatomize.read st T = (.error (.wrongToken T t.type),
         { st with lookaheadIndex := st.lookaheadIndex + 1 })) := by
  have hnext := nextToken_eq_of_get (show st.lookaheadBuffer.get? st.lookaheadIndex = some (some t) from ht)
  have hp2 : ({ st with lookaheadIndex := st.lookaheadIndex + 1 } : Anatomize).parsing = true := hp
  refine ⟨?_, ?_, ?_⟩
  · intro hh hne
    rw [Anatomize.read, Anatomize.read, if_pos hp, if_pos hp2, readLoop_eq_skip hnext hh hne]
  · intro hT
    rw [Anatomize.read, if_pos hp, readLoop_eq_stop hnext (by simp [hT])]
    dsimp only
    rw [if_pos hT]
  · intro hh hne
    rw [Anatomize.read, if_pos hp, readLoop_eq_stop hnext (by simp [hh])]
    dsimp only
    rw [if_neg hne]

/-- Witness for C4: reading the hidden type H when the next raw token is
the hidden `tokH` of exactly that type consumes and returns it. -/
theorem C4_read_hidden_fallback_witness :
    Anatomize.read stHV ['H'] = (.ok tokH, { stHV with lookaheadIndex := stHV.lookaheadIndex + 1 }) :=
  (C4_read_hidden_fallback stHV ['H'] tokH rfl rfl).2.1 rfl

/-- Claim C9: `read` is not atomic on failure.  When the run of raw
tokens at the read cursor consists of `n` hidden tokens of types other
than T followed by a non-hidden token `t` of a type also different from
T, `read(T)` throws the wrong-token SyntaxError with the read cursor
permanently advanced past all `n + 1` consumed tokens, so subsequent
token access starts after them. -/
theorem C9_read_not_atomic (st : Anatomize) (T : List Char) (n : Nat) (t : Token)
    (hp : st.parsing = true)
    (hhid : ∀ k, k < n → ∃ hk : Token,
       st.lookaheadBuffer.get? (st.lookaheadIndex + k) = some (some hk) ∧
       hk.hidden = true ∧ hk.type ≠ T)
    (ht : st.lookaheadBuffer.get? (st.lookaheadIndex + n) = some (some t))
    (hth : t.hidden = false) (htt : t.type ≠ T) :
    Anatomize.read st T = (.error (.wrongToken T t.type),
                 { st with lookaheadIndex := st.lookaheadIndex + n + 1 }) := by
  have hrun := readLoop_run T n st t hhid ht (by simp [hth])
  rw [Anatomize.read, if_pos hp, hrun]
  dsimp only
  rw [if_neg htt]

/-- Witness for C9 on the buffer [hidden H, visible V] with requested type
Z: the hidden token and the visible V token are both consumed, the
wrong-token error is thrown, and the cursor rests past both. -/
theorem C9_read_not_atomic_witness :
    Anatomize.read stHV ['Z'] = (.error (.wrongToken ['Z'] tokV.type),
      { stHV with lookaheadIndex := stHV.lookaheadIndex + 1 + 1 }) := by
  have h := C9_read_not_atomic stHV ['Z'] 1 tokV rfl
    (fun k hk => by
      have hk0 : k = 0 := by omega
      subst hk0
      exact ⟨tokH, rfl, rfl, by decide⟩)
    rfl rfl (by decide)
  exact h

/-- A hidden token type H registered with the anchored pattern `/^x/`. -/
def hiddenXDef : TokenType := ⟨some ['H'], .regex ⟨true, .cls ['x']⟩, true⟩

/-- Facade with only hidden H registered, mode flag set, pre-tokenizing. -/
def stH0 : Anatomize := ⟨[hiddenXDef], [], 0, [], 0, true⟩

/-- The facade state `parse("x")` reaches right after tokenizing: the
lookahead buffer holds just the hidden token H. -/
def stH : Anatomize := ⟨[hiddenXDef], ['x'], 1, [some tokH], 0, true⟩

/-- Claim C10 as stated, formalised over the embedding: whenever a hidden
token occupies a buffer position at or after the read cursor of a parsing
facade, two distinct offsets exist at which `peek` returns the very same
non-hidden token. -/
def RawOffsetClaim : Prop :=
  ∀ st : Anatomize, st.parsing = true →
    (∃ p, st.lookaheadIndex ≤ p ∧ ∃ h : Token,
       st.lookaheadBuffer.get? p = some (some h) ∧ h.hidden = true) →
    ∃ k k2 : Nat, k ≠ k2 ∧ ∃ v : Token, v.hidden = false ∧
      peek st k = .ok (some v) ∧ peek st k2 = .ok (some v)

/-- Claim C10, counterexample: tokenizing "x" with only the hidden type H
registered yields a buffer holding exactly the hidden token, which
occupies the position at the read cursor; yet `peek` returns nothing at
every offset, so no two offsets return the same non-hidden token - the
claim as stated fails when no visible token follows the hidden one. -/
theorem C10_counterexample :
    tokenizeSource stH0 ['x'] = .ok stH ∧ ¬ RawOffsetClaim := by
  constructor
  · have htd : tryDefs [hiddenXDef] ['x'] = .ok (hiddenXDef, some ['x'], 1) := by rfl
    have hrt0 : readToken [hiddenXDef] ['x'] 0 =
        .ok (some ⟨hiddenXDef.name.getD [], (some ['x']).getD [], hiddenXDef.hidden⟩, 0 + 1) :=
      readToken_eq_emit htd (by decide)
    have hrt : readToken [hiddenXDef] ['x'] 0 = .ok (some tokH, 0 + 1) := hrt0
    have hloop : tokenizeLoop [hiddenXDef] ['x'] 0 [] = .ok ([some tokH], 0 + 1) := by
      rw [tokenizeLoop_eq_step (by simp) hrt, tokenizeLoop_eq_done (by simp)]
      rfl
    unfold tokenizeSource
    have hloop2 : tokenizeLoop stH0.TokenTypes ['x'] 0 [] = .ok ([some tokH], 0 + 1) := hloop
    rw [hloop2]
    rfl
  · intro hcl
    obtain ⟨k, k2, hne, v, hv, hpk, hpk2⟩ :=
      hcl stH rfl ⟨0, Nat.le_refl 0, tokH, rfl, rfl⟩
    have hall : ∀ k3 : Nat, peekLoop stH k3 = none := by
      intro k3
      cases k3 with
      | zero =>
        rw [peekLoop_eq_skip (show peekToken stH 0 = some tokH from rfl) rfl]
        exact peekLoop_eq_none rfl
      | succ m => exact peekLoop_eq_none rfl
    rw [peek, if_pos (show stH.parsing = true from rfl), hall k] at hpk
    cases hpk

/-- Claim C10 (amended): whenever a hidden token sits at raw offset `k`
(relative to the read cursor) of a parsing facade AND `peek(k)` still
returns a token, that token is non-hidden and is also returned unchanged
at some distinct (larger) offset, because the offset argument indexes the
raw buffer including hidden tokens rather than the visible tokens - so
consecutive offsets do not enumerate consecutive visible tokens. -/
theorem C10_raw_offsets (st : Anatomize) (k : Nat) (h v : Token)
    (hp : st.parsing = true)
    (hraw : peekToken st k = some h) (hh : h.hidden = true)
    (hv : peek st k = .ok (some v)) :
    v.hidden = false ∧ ∃ k2, k ≠ k2 ∧ peek st k2 = .ok (some v) := by
  rw [peek, if_pos hp] at hv
  injection hv with hv
  rw [peekLoop_eq_skip hraw hh] at hv
  obtain ⟨j, hj1, hj2, hj3, hj4⟩ := peekLoop_some_found hv
  refine ⟨hj3, j, by omega, ?_⟩
  rw [peek, if_pos hp, hj4]

/-- Witness for the amended C10 on the buffer [hidden H, visible V]:
`peek(0)` looks through the hidden token at raw offset 0 and returns the
same visible token that `peek` at a later offset returns directly. -/
theorem C10_raw_offsets_witness :
    tokV.hidden = false ∧ ∃ k2, 0 ≠ k2 ∧ peek stHV k2 = .ok (some tokV) :=
  C10_raw_offsets stHV 0 tokH tokV rfl rfl rfl
    (by rw [peek, if_pos (show stHV.parsing = true from rfl),
            peekLoop_eq_skip (show peekToken stHV 0 = some tokH from rfl) rfl,
            peekLoop_eq_found (show peekToken stHV 1 = some tokV from rfl) rfl])

/-- Claim C8: tokenization never stores a token with an empty (or, in the
JS original, null) value in the lookahead buffer - a match without a
value is rejected outright when its length is zero and treated as a
discard when its length is positive - and consequently neither `peek` nor
`read` ever returns a token with an empty value. -/
theorem C8_nonempty_values (st st2 : Anatomize) (source : List Char) (offset : Nat)
    (T : List Char) :
    (tokenizeSource st source = .ok st2 → BufValuesNonEmpty st2.lookaheadBuffer) ∧
    (BufValuesNonEmpty st.lookaheadBuffer →
       (∀ t : Token, peek st offset = .ok (some t) → t.value ≠ []) ∧
       (∀ (t : Token) (st3 : Anatomize), Anatomize.read st T = (.ok t, st3) → t.value ≠ [])) := by
  constructor
  · intro h
    unfold tokenizeSource at h
    cases hl : tokenizeLoop st.TokenTypes source 0 [] with
    | error e =>
      rw [hl] at h
      obtain ⟨e1, buf1, idx1⟩ := e
      cases h
    | ok p =>
      obtain ⟨buf, idx⟩ := p
      rw [hl] at h
      injection h with h
      have hbuf : st2.lookaheadBuffer = buf := by rw [← h]
      rw [hbuf]
      exact tokenizeLoop_nonempty_aux st.TokenTypes source source.length 0 [] buf idx
        (by omega) (fun t htm => absurd htm (by simp)) hl
  · intro hne
    constructor
    · intro t hpk
      by_cases hp : st.parsing = true
      · rw [peek, if_pos hp] at hpk
        injection hpk with hpk
        exact hne t (peekLoop_mem hpk)
      · rw [peek, if_neg hp] at hpk
        cases hpk
    · intro t st3 hrd
      by_cases hp : st.parsing = true
      · rw [Anatomize.read, if_pos hp] at hrd
        split at hrd
        · rename_i u st4 heq
          split at hrd
          · obtain ⟨h1, -⟩ := Prod.mk.injEq .. ▸ hrd
            injection h1 with h1
            exact h1 ▸ hne u (readLoop_mem heq)
          · obtain ⟨h1, -⟩ := Prod.mk.injEq .. ▸ hrd
            cases h1
        · rename_i st4 heq
          obtain ⟨h1, -⟩ := Prod.mk.injEq .. ▸ hrd
          cases h1
      · rw [Anatomize.read, if_neg hp] at hrd
        obtain ⟨h1, -⟩ := Prod.mk.injEq .. ▸ hrd
        cases h1

/-- Witness for C8: tokenizing the empty source yields a buffer whose
tokens (vacuously) all have non-empty values, and on the concrete
buffer [hidden H, visible V] every token `peek` returns has a non-empty
value. -/
theorem C8_nonempty_values_witness :
    BufValuesNonEmpty ({ stHV with buffer := [], index := 0, lookaheadBuffer := [], lookaheadIndex := 0 } : Anatomize).lookaheadBuffer ∧
    (∀ t : Token, peek stHV 0 = .ok (some t) → t.value ≠ []) := by
  constructor
  · refine (C8_nonempty_values stHV _ [] 0 []).1 ?_
    unfold tokenizeSource
    rw [tokenizeLoop_eq_done (by simp)]
  · refine ((C8_nonempty_values stHV stHV [] 0 []).2 ?_).1
    intro t htm
    have h2 : t = tokH ∨ t = tokV := by simpa [stHV] using htm
    rcases h2 with rfl | rfl <;> decide

/-- Claim C7: mode gating.  While the mode flag is down, `peek`, `read`,
`isEOF` and `isPeekType` all throw the not-parsing ModeError (the last
through the guard inside `peek`) and return the facade unchanged; while
it is up, `registerToken` and `registerHiddenToken` throw the
RegistrationError and `parse` rejects the re-entrant call, in every case
before any mutation of the registry, buffer or cursors. -/
theorem C7_mode_gating (st : Anatomize) (offset : Nat) (T : List Char)
    (name : Option (List Char)) (m : Matcher)
    (main : Anatomize → Except Anatomize (Unit × Anatomize)) (source : List Char) :
    (st.parsing = false →
       peek st offset = .error .notParsing ∧
       Anatomize.read st T = (.error .mode, st) ∧
       isEOF st = .error .notParsing ∧
       isPeekType st T offset = .error .notParsing) ∧
    (st.parsing = true →
       registerToken st name m = .error .whileParsing ∧
       registerHiddenToken st name m = .error .whileParsing ∧
       parse st main source = .modeErr st) := by
  constructor
  · intro hp
    have hnp : ¬ st.parsing = true := by rw [hp]; exact Bool.false_ne_true
    refine ⟨?_, ?_, ?_, ?_⟩
    · rw [peek, if_neg hnp]
    · rw [Anatomize.read, if_neg hnp]
    · rw [isEOF, if_neg hnp]
    · rw [isPeekType, peek, if_neg hnp]
      rfl
  · intro hp
    refine ⟨?_, ?_, ?_⟩
    · rw [registerToken, addTokenType, if_pos hp]
    · rw [registerHiddenToken, addTokenType, if_pos hp]
    · rw [parse, if_pos hp]

/-- Facade with the mode flag down: the not-parsing half of C7. -/
def stDown : Anatomize := ⟨[], [], 0, [], 0, false⟩

/-- Witness for C7 exercising both halves: the token-access guards on a
non-parsing facade and the registration/re-entrancy guards on a parsing
facade. -/
theorem C7_mode_gating_witness :
    (peek stDown 0 = .error .notParsing ∧
     Anatomize.read stDown ['A'] = (.error .mode, stDown) ∧
     isEOF stDown = .error .notParsing ∧
     isPeekType stDown ['A'] 0 = .error .notParsing) ∧
    (registerToken stHV (some ['A']) (.regex ⟨true, .cls ['x']⟩) = .error .whileParsing ∧
     registerHiddenToken stHV (some ['A']) (.regex ⟨true, .cls ['x']⟩) = .error .whileParsing ∧
     parse stHV (fun s => .ok ((), s)) ['x'] = .modeErr stHV) :=
  ⟨(C7_mode_gating stDown 0 ['A'] (some ['A']) (.regex ⟨true, .cls ['x']⟩)
      (fun s => .ok ((), s)) ['x']).1 rfl,
   (C7_mode_gating stHV 0 ['A'] (some ['A']) (.regex ⟨true, .cls ['x']⟩)
      (fun s => .ok ((), s)) ['x']).2 rfl⟩

/-- Fresh facade before any registration, mode flag down. -/
def st0 : Anatomize := ⟨[], [], 0, [], 0, false⟩

/-- A main function that immediately returns. -/
def main0 : Anatomize → Except Anatomize (Unit × Anatomize) := fun st => .ok ((), st)

/-- The state `parse("a")` on `st0` leaves behind when tokenization
throws: the buffer is loaded and - because `Tokenizer.initialize` is
called outside the try/finally - the parsing flag is still up. -/
def stBad : Anatomize := ⟨[], ['a'], 0, [], 0, true⟩

/-- Claim C1, evaluated at the failing input: on a facade with no
registered token types, `parse("a")` propagates the undefined-token
LexicalError from tokenization with the parsing flag STILL TRUE (the
`finally` only guards the main-function call, and `Tokenizer.initialize`
runs before the `try`), so every subsequent `parse` on the facade is
rejected as re-entrant - contradicting the claim that the flag is false
on every exit path.  The flag IS reset when the main function returns or
throws, which is every other exit path. -/
theorem C1_lex_error_keeps_parsing :
    parse st0 main0 ['a'] = .lexErr (.undefinedToken ['a']) stBad ∧
    stBad.parsing = true ∧
    (∀ (main2 : Anatomize → Except Anatomize (Unit × Anatomize)) (source : List Char),
       parse stBad main2 source = .modeErr stBad) ∧
    (∀ (st4 st5 : Anatomize) (main3 : Anatomize → Except Anatomize (Unit × Anatomize))
       (source : List Char) (v : Unit),
       (parse st4 main3 source = .ok v st5 → st5.parsing = false) ∧
       (parse st4 main3 source = .mainErr st5 → st5.parsing = false)) := by
  refine ⟨?_, rfl, ?_, ?_⟩
  · have hrt : readToken ([] : List TokenType) ['a'] 0 = .error (.undefinedToken ['a']) :=
      readToken_eq_error rfl
    have hloop : tokenizeLoop ({ st0 with parsing := true } : Anatomize).TokenTypes ['a'] 0 [] =
        .error (.undefinedToken ['a'], [], 0) :=
      tokenizeLoop_eq_error (by simp) hrt
    rw [parse, if_neg (by decide)]
    unfold tokenizeSource
    rw [hloop]
    rfl
  · intro main2 source
    rw [parse, if_pos (show stBad.parsing = true from rfl)]
  · intro st4 st5 main3 source v
    constructor
    · intro h
      rw [parse] at h
      split at h
      · cases h
      · split at h
        · cases h
        · rename_i st6 hts
          split at h
          · rename_i v2 st7 hm
            injection h with h1 h2
            rw [← h2]
          · cases h
    · intro h
      rw [parse] at h
      split at h
      · cases h
      · split at h
        · cases h
        · rename_i st6 hts
          split at h
          · cases h
          · rename_i st7 hm
            injection h with h1
            rw [← h1]
